import Mathlib

/-!
Verification of the `precious-time-tracker` service layer
(`internal/service/service.go` and the report-period helper).

The Go code is shallowly embedded: instants are integers counting seconds
(`Sec`), `sql.NullTime` becomes `Option Sec`, the SQLite store becomes an
explicit `Store` record, and each service method becomes a pure Lean
function on `Store`.  Fallible operations return `Except String Store`.
All definitions are executable so concrete runs can be checked by `decide`.
-/

namespace PreciousTime

/-! ## Tag extractor (`parseTags`, service.go lines 30-46)

The Go code runs the regular expression `#([a-zA-Z0-9_]+)` with
`FindAllStringSubmatch` and deduplicates the lowercased capture groups with
a `seen` set, keeping first-occurrence order.

For the regex `#([a-zA-Z0-9_]+)`, leftmost scanning with a greedy `+` finds,
at each `#` that is directly followed by at least one word character, the
maximal run of word characters after it, then resumes scanning after that
run.  `findAllTags` below implements exactly that scan as a left fold whose
state carries the finished matches together with the (reversed) word-run of
the candidate match currently being read. -/

/-- The character class `[a-zA-Z0-9_]` of the Go regex (ASCII only, as in
RE2 without Unicode classes). -/
def isWordChar (c : Char) : Bool :=
  c.isAlpha || c.isDigit || c == '_'

/-- State of the regex scan: matches already emitted, and the reversed
characters of the capture group currently being read (`some r` after a `#`
was seen and `r` word characters consumed; `none` outside a match). -/
structure ScanState where
  acc : List String
  cur : Option (List Char)
deriving DecidableEq

/-- One step of the scan of `#([a-zA-Z0-9_]+)`. -/
def scanStep (st : ScanState) (c : Char) : ScanState :=
  match st.cur with
  | some r =>
      if isWordChar c then ⟨st.acc, some (c :: r)⟩
      else
        let acc := if r = [] then st.acc else st.acc ++ [String.mk r.reverse]
        ⟨acc, if c = '#' then some [] else none⟩
  | none => ⟨st.acc, if c = '#' then some [] else none⟩

/-- Emit the final pending capture group, if any. -/
def scanFlush (st : ScanState) : List String :=
  match st.cur with
  | some r => if r = [] then st.acc else st.acc ++ [String.mk r.reverse]
  | none => st.acc

/-- All matches of the Go regex `#([a-zA-Z0-9_]+)` (capture groups only), in
order of occurrence. -/
def findAllTags (s : String) : List String :=
  scanFlush (s.data.foldl scanStep ⟨[], none⟩)

/-- `strings.ToLower` restricted to the matched character class (ASCII), as
applied by `parseTags`. -/
def lowerStr (s : String) : String :=
  String.mk (s.data.map Char.toLower)

/-- The `seen`-map loop of `parseTags`: keep each tag the first time it is
encountered. -/
def dedupSeen : List String → List String → List String
  | [], _ => []
  | t :: ts, seen => if t ∈ seen then dedupSeen ts seen else t :: dedupSeen ts (t :: seen)

/-- `parseTags` (service.go lines 32-46): lowercase every regex match, then
deduplicate keeping first occurrences. -/
def parseTags (s : String) : List String :=
  dedupSeen ((findAllTags s).map lowerStr) []

/-- Specification-side formulation of first-occurrence deduplication, as a
left fold that appends an element only if it has not been kept yet. -/
def firstOccur (l : List String) : List String :=
  l.foldl (fun acc t => if t ∈ acc then acc else acc ++ [t]) []

theorem dedupSeen_append_foldl (l : List String) :
    ∀ seen acc : List String, (∀ t, t ∈ seen ↔ t ∈ acc) →
      acc ++ dedupSeen l seen = l.foldl (fun acc t => if t ∈ acc then acc else acc ++ [t]) acc := by
  induction l with
  | nil => intro seen acc _; simp [dedupSeen]
  | cons t ts ih =>
      intro seen acc hiff
      by_cases ht : t ∈ seen
      · rw [dedupSeen, if_pos ht, List.foldl_cons, if_pos ((hiff t).mp ht)]
        exact ih seen acc hiff
      · rw [dedupSeen, if_neg ht, List.foldl_cons, if_neg (fun h => ht ((hiff t).mpr h))]
        have : acc ++ t :: dedupSeen ts (t :: seen) = (acc ++ [t]) ++ dedupSeen ts (t :: seen) := by
          simp
        rw [this]
        exact ih (t :: seen) (acc ++ [t]) (by intro u; simp [hiff u, or_comm])

theorem dedupSeen_nodup (l : List String) :
    ∀ seen : List String, (dedupSeen l seen).Nodup ∧ ∀ t ∈ dedupSeen l seen, t ∉ seen := by
  induction l with
  | nil => intro seen; simp [dedupSeen]
  | cons t ts ih =>
      intro seen
      by_cases ht : t ∈ seen
      · rw [dedupSeen, if_pos ht]
        exact ⟨(ih seen).1, (ih seen).2⟩
      · rw [dedupSeen, if_neg ht]
        refine ⟨List.nodup_cons.mpr ⟨fun hmem => ?_, (ih (t :: seen)).1⟩, ?_⟩
        · exact (ih (t :: seen)).2 t hmem (List.mem_cons_self t seen)
        · intro u hu hus
          rcases List.mem_cons.mp hu with rfl | hu
          · exact ht hus
          · exact (ih (t :: seen)).2 u hu (List.mem_cons_of_mem t hus)

/-- C5 -- The tag extractor returns the distinct regex matches, lowercased,
in first-occurrence order with case-insensitive deduplication; a hyphen
terminates a token; the cited examples hold and a no-match input yields an
empty result. -/
theorem parseTags_contract :
    (∀ s : String,
        parseTags s = firstOccur ((findAllTags s).map lowerStr)
          ∧ (parseTags s).Nodup
          ∧ (findAllTags s = [] → parseTags s = []))
      ∧ parseTags "#Tag #tag" = ["tag"]
      ∧ parseTags "#tag_123 #not-a-tag" = ["tag_123", "not"]
      ∧ parseTags "no tags here" = [] := by
  refine ⟨fun s => ⟨?_, ?_, ?_⟩, by decide, by decide, by decide⟩
  · have h := dedupSeen_append_foldl ((findAllTags s).map lowerStr) [] [] (by simp)
    simpa [firstOccur, parseTags] using h
  · exact (dedupSeen_nodup ((findAllTags s).map lowerStr) []).1
  · intro h; simp [parseTags, h, dedupSeen]

/-- Witness for C5: the no-match clause applied at a concrete input. -/
theorem parseTags_contract_witness : parseTags "just words" = [] :=
  (parseTags_contract.1 "just words").2.2 (by decide)

/-! ## Time model

Go `time.Time` values are modelled as a count of seconds (`Sec : Int`).
All reference instants in the claims are UTC and the Go code uses a single
location (`now.Location()`) throughout, so one fixed location suffices;
civil (year/month/day, hour/minute/second) decomposition follows the
proleptic Gregorian calendar exactly as Go's `time` package computes it.
Divisions use `Int.ediv`/`Int.emod`, which agree with floor
division/modulus for the positive divisors used here. -/

abbrev Sec := Int

/-- `true` for leap years, as Go `time.isLeap`. -/
def isLeapYear (y : Int) : Bool :=
  y % 4 = 0 && (y % 100 ≠ 0 || y % 400 = 0)

/-- Days in a month, as Go `time.daysIn`. -/
def daysIn (y m : Int) : Int :=
  if m = 2 then (if isLeapYear y then 29 else 28)
  else if m = 4 ∨ m = 6 ∨ m = 9 ∨ m = 11 then 30
  else 31

/-- Days from 1970-01-01 to the civil date `(y, m, d)`, for `m ∈ [1, 12]`
and arbitrary `d` (days beyond the month roll over, as in Go's
normalizing `time.Date`). -/
def daysFromCivil (y m d : Int) : Int :=
  let y1 := if m ≤ 2 then y - 1 else y
  let era := y1 / 400
  let yoe := y1 - era * 400
  let mp := if m > 2 then m - 3 else m + 9
  let doy := (153 * mp + 2) / 5 + (d - 1)
  let doe := yoe * 365 + yoe / 4 - yoe / 100 + doy
  era * 146097 + doe - 719468

/-- Civil date `(y, m, d)` of a day count from 1970-01-01 (inverse of
`daysFromCivil` on valid dates). -/
def civilFromDays (z0 : Int) : Int × Int × Int :=
  let z := z0 + 719468
  let era := z / 146097
  let doe := z - era * 146097
  let yoe := (doe - doe / 1460 + doe / 36524 - doe / 146096) / 365
  let y := yoe + era * 400
  let doy := doe - (365 * yoe + yoe / 4 - yoe / 100)
  let mp := (5 * doy + 2) / 153
  let d := doy - (153 * mp + 2) / 5 + 1
  let m := if mp < 10 then mp + 3 else mp - 9
  (if m ≤ 2 then y + 1 else y, m, d)

/-- Go `time.Date y m d hh mm ss 0 loc` as a second count; months outside
`[1, 12]` are normalized into the year first, exactly as Go does, and the
remaining fields are added linearly (which is Go's normalization). -/
def mkTime (y m d hh mm ss : Int) : Sec :=
  let ny := y + (m - 1) / 12
  let nm := (m - 1) % 12 + 1
  daysFromCivil ny nm d * 86400 + hh * 3600 + mm * 60 + ss

/-- The civil date of an instant (Go `t.Year(), t.Month(), t.Day()`). -/
def civilOf (t : Sec) : Int × Int × Int :=
  civilFromDays (t / 86400)

/-- Go `t.Weekday()` as an integer, `0` = Sunday (1970-01-01 was a
Thursday, weekday 4). -/
def weekdayOf (t : Sec) : Int :=
  (t / 86400 + 4) % 7

/-- Go `t.AddDate dy dm dd`: re-build the date from the civil fields with
the offsets added, keeping the clock-of-day. -/
def addDate (t : Sec) (dy dm dd : Int) : Sec :=
  let clock := t % 86400
  match civilOf t with
  | (y, m, d) => mkTime (y + dy) (m + dm) (d + dd) 0 0 clock

/-- The Go zero value `time.Time{}`: January 1, year 1, 00:00:00 UTC. -/
def goZeroTime : Sec := mkTime 1 1 1 0 0 0

/-- `CalculateReportPeriod` (reports helper in the service package): start
and end instants of the period containing `now`; the end is inclusive
(`.Add(-time.Second)` after adding the period length). -/
def CalculateReportPeriod (period : String) (now : Sec) : Sec × Sec :=
  if period = "today" then
    let s := match civilOf now with
      | (y, m, d) => mkTime y m d 0 0 0
    (s, addDate s 0 0 1 - 1)
  else if period = "week" then
    let wd0 := weekdayOf now
    let wd := if wd0 = 0 then 7 else wd0
    let s0 := match civilOf now with
      | (y, m, d) => mkTime y m d 0 0 0
    let s := addDate s0 0 0 (-wd + 1)
    (s, addDate s 0 0 7 - 1)
  else if period = "month" then
    let s := match civilOf now with
      | (y, m, _) => mkTime y m 1 0 0 0
    (s, addDate s 0 1 0 - 1)
  else if period = "year" then
    let s := match civilOf now with
      | (y, _, _) => mkTime y 1 1 0 0 0
    (s, addDate s 1 0 0 - 1)
  else
    (goZeroTime, addDate now 100 0 0)

/-- C6 -- `CalculateReportPeriod` is a pure function of keyword and
reference instant, returns the listed ranges for the Monday reference
instant 2024-01-15T12:00:00Z, the Monday-start week for the Sunday
reference instant 2024-01-14T12:00:00Z, and for `all` or any other
unrecognized keyword the Go zero time paired with now + 100 years. -/
theorem calculateReportPeriod_cases :
    CalculateReportPeriod "today" (mkTime 2024 1 15 12 0 0)
        = (mkTime 2024 1 15 0 0 0, mkTime 2024 1 15 23 59 59)
      ∧ CalculateReportPeriod "week" (mkTime 2024 1 15 12 0 0)
        = (mkTime 2024 1 15 0 0 0, mkTime 2024 1 21 23 59 59)
      ∧ CalculateReportPeriod "month" (mkTime 2024 1 15 12 0 0)
        = (mkTime 2024 1 1 0 0 0, mkTime 2024 1 31 23 59 59)
      ∧ CalculateReportPeriod "year" (mkTime 2024 1 15 12 0 0)
        = (mkTime 2024 1 1 0 0 0, mkTime 2024 12 31 23 59 59)
      ∧ CalculateReportPeriod "week" (mkTime 2024 1 14 12 0 0)
        = (mkTime 2024 1 8 0 0 0, mkTime 2024 1 14 23 59 59)
      ∧ ∀ (period : String) (now : Sec),
          period ≠ "today" → period ≠ "week" → period ≠ "month" → period ≠ "year" →
          CalculateReportPeriod period now = (goZeroTime, addDate now 100 0 0) := by
  refine ⟨by decide, by decide, by decide, by decide, by decide, ?_⟩
  intro period now h1 h2 h3 h4
  simp [CalculateReportPeriod, h1, h2, h3, h4]

/-- Witness for C6: the unrecognized-keyword clause applied to `all` at the
Monday reference instant. -/
theorem calculateReportPeriod_cases_witness :
    CalculateReportPeriod "all" (mkTime 2024 1 15 12 0 0)
      = (goZeroTime, addDate (mkTime 2024 1 15 12 0 0) 100 0 0) :=
  calculateReportPeriod_cases.2.2.2.2.2 "all" (mkTime 2024 1 15 12 0 0)
    (by decide) (by decide) (by decide) (by decide)

/-! ## Data model and store

The SQLite schema (`sql/schema/*.sql`): `time_entries(id, description,
start_time, end_time NULLABLE, category_id NULLABLE)`,
`categories(id, name, color)`, `tags(id, name UNIQUE)`,
`time_entry_tags(time_entry_id, tag_id)`.  Autoincrement ids are modelled
with explicit `next…Id` counters. -/

structure TimeEntry where
  id : Nat
  description : String
  startTime : Sec
  endTime : Option Sec
  categoryID : Option Int
deriving DecidableEq

structure Category where
  id : Int
  name : String
  color : String
deriving DecidableEq

structure Tag where
  id : Int
  name : String
deriving DecidableEq

structure Store where
  entries : List TimeEntry
  categories : List Category
  tags : List Tag
  tagLinks : List (Nat × Int)
  nextEntryId : Nat
  nextCategoryId : Int
  nextTagId : Int
deriving DecidableEq

def emptyStore : Store := ⟨[], [], [], [], 1, 1, 1⟩

/-! ## Persistence queries used by the timer lifecycle
(`sql/queries/queries.sql`) -/

/-- Fold step realizing `ORDER BY start_time DESC LIMIT 1`: keep the entry
with the latest start time (the first one on ties). -/
def pickLater (acc : Option TimeEntry) (e : TimeEntry) : Option TimeEntry :=
  match acc with
  | none => some e
  | some b => if e.startTime > b.startTime then some e else some b

/-- `GetActiveTimeEntry`: `SELECT * FROM time_entries WHERE end_time IS
NULL ORDER BY start_time DESC LIMIT 1` (`sql.ErrNoRows` becomes `none`). -/
def GetActiveTimeEntry (st : Store) : Option TimeEntry :=
  (st.entries.filter (fun e => e.endTime.isNone)).foldl pickLater none

/-- `UpdateTimeEntry`: `UPDATE time_entries SET end_time = ? WHERE id = ?`. -/
def setEndTime (entries : List TimeEntry) (id : Nat) (t : Sec) : List TimeEntry :=
  entries.map (fun e => if e.id = id then { e with endTime := some t } else e)

/-- `CreateTag`: `INSERT INTO tags (name) VALUES (?) ON CONFLICT(name) DO
UPDATE SET name=name RETURNING *` — get-or-create by name. -/
def createTag (st : Store) (name : String) : Tag × Store :=
  match st.tags.find? (fun tg => tg.name = name) with
  | some tg => (tg, st)
  | none =>
      let tg : Tag := ⟨st.nextTagId, name⟩
      (tg, { st with tags := st.tags ++ [tg], nextTagId := st.nextTagId + 1 })

/-- `DeleteOrphanedTags`: delete tags with no `time_entry_tags` link. -/
def deleteOrphanedTags (st : Store) : Store :=
  { st with tags := st.tags.filter (fun tg => st.tagLinks.any (fun l => l.2 = tg.id)) }

/-- One iteration of the tag loop in `updateTags`: get-or-create the tag row
and link it to the entry. -/
def addTagLink (st : Store) (entryID : Nat) (name : String) : Store :=
  let p := createTag st name
  { p.2 with tagLinks := p.2.tagLinks ++ [(entryID, p.1.id)] }

/-- `updateTags` (service.go lines 48-75): clear the entry's links,
get-or-create and link each tag, then delete orphaned tags. -/
def updateTags (st : Store) (entryID : Nat) (tags : List String) : Store :=
  let st1 := { st with tagLinks := st.tagLinks.filter (fun l => l.1 ≠ entryID) }
  deleteOrphanedTags (tags.foldl (fun s name => addTagLink s entryID name) st1)

/-! ## Timer lifecycle (`StartTimer`, `StopTimer`; service.go 120-182) -/

/-- `StartTimer`: default the description, close the currently active entry
if any, create the new running entry, and sync its tags — one transaction. -/
def StartTimer (st : Store) (now : Sec) (description0 : String)
    (categoryID : Option Int) : Store :=
  let description := if description0 = "" then "No description" else description0
  let st1 :=
    match GetActiveTimeEntry st with
    | some a => { st with entries := setEndTime st.entries a.id now }
    | none => st
  let entry : TimeEntry := ⟨st1.nextEntryId, description, now, none, categoryID⟩
  let st2 := { st1 with entries := st1.entries ++ [entry], nextEntryId := st1.nextEntryId + 1 }
  updateTags st2 entry.id (parseTags description)

/-- `StopTimer`: close the active entry; a no-op when none is active. -/
def StopTimer (st : Store) (now : Sec) : Store :=
  match GetActiveTimeEntry st with
  | some a => { st with entries := setEndTime st.entries a.id now }
  | none => st

/-- A sequence of timer operations, each carrying its `time.Now()`. -/
inductive TimerOp where
  | start (now : Sec) (description : String) (categoryID : Option Int)
  | stop (now : Sec)

def applyOp (st : Store) : TimerOp → Store
  | .start now d c => StartTimer st now d c
  | .stop now => StopTimer st now

def runOps (st : Store) (ops : List TimerOp) : Store := ops.foldl applyOp st

def TimerOp.isStart : TimerOp → Prop
  | .start _ _ _ => True
  | .stop _ => False

/-- Number of running entries (null `end_time`) in the store. -/
def activeCount (st : Store) : Nat :=
  (st.entries.filter (fun e => e.endTime.isNone)).length

/-- Well-formedness maintained by the lifecycle: entry ids are distinct and
below the autoincrement counter. -/
def EntriesWF (st : Store) : Prop :=
  (st.entries.map TimeEntry.id).Nodup ∧ ∀ e ∈ st.entries, e.id < st.nextEntryId

/-- The single-active-timer invariant together with well-formedness. -/
def Inv (st : Store) : Prop := EntriesWF st ∧ activeCount st ≤ 1

theorem foldl_pickLater_isSome (l : List TimeEntry) :
    ∀ b : TimeEntry, (l.foldl pickLater (some b)).isSome = true := by
  induction l with
  | nil => intro b; rfl
  | cons e l ih =>
      intro b
      rw [List.foldl_cons]
      by_cases h : e.startTime > b.startTime
      · simpa [pickLater, h] using ih e
      · simpa [pickLater, h] using ih b

theorem getActive_eq_none_iff (st : Store) :
    GetActiveTimeEntry st = none ↔ activeCount st = 0 := by
  unfold GetActiveTimeEntry activeCount
  cases h : st.entries.filter (fun e => e.endTime.isNone) with
  | nil => simp
  | cons e l =>
      simp only [List.foldl_cons, List.length_cons]
      constructor
      · intro hn
        have h2 := foldl_pickLater_isSome l e
        rw [show pickLater none e = some e from rfl] at hn
        rw [hn] at h2
        cases h2
      · intro h2
        exact absurd h2 (by omega)

theorem foldl_pickLater_mem (l : List TimeEntry) :
    ∀ (acc : Option TimeEntry) (x : TimeEntry),
      l.foldl pickLater acc = some x → x ∈ l ∨ acc = some x := by
  induction l with
  | nil => intro acc x h; exact Or.inr h
  | cons e l ih =>
      intro acc x h
      rw [List.foldl_cons] at h
      rcases ih (pickLater acc e) x h with hmem | heq
      · exact Or.inl (List.mem_cons_of_mem e hmem)
      · cases acc with
        | none =>
            have hex : e = x := by simpa [pickLater] using heq
            exact Or.inl (by rw [← hex]; exact List.mem_cons_self e l)
        | some b =>
            by_cases hgt : e.startTime > b.startTime
            · have hex : e = x := by simpa [pickLater, hgt] using heq
              exact Or.inl (by rw [← hex]; exact List.mem_cons_self e l)
            · have hbx : b = x := by simpa [pickLater, hgt] using heq
              exact Or.inr (by rw [hbx])

theorem getActive_mem {st : Store} {a : TimeEntry}
    (h : GetActiveTimeEntry st = some a) : a ∈ st.entries ∧ a.endTime = none := by
  unfold GetActiveTimeEntry at h
  rcases foldl_pickLater_mem _ none a h with hmem | heq
  · have hm := List.mem_filter.mp hmem
    exact ⟨hm.1, by simpa using hm.2⟩
  · cases heq

theorem setEndTime_map_id (l : List TimeEntry) (i : Nat) (t : Sec) :
    (setEndTime l i t).map TimeEntry.id = l.map TimeEntry.id := by
  induction l with
  | nil => rfl
  | cons e l ih =>
      simp only [setEndTime, List.map_cons] at ih ⊢
      by_cases h : e.id = i <;> simp [h, ih]

theorem setEndTime_not_mem (l : List TimeEntry) (i : Nat) (t : Sec)
    (h : i ∉ l.map TimeEntry.id) : setEndTime l i t = l := by
  induction l with
  | nil => rfl
  | cons e l ih =>
      have h1 : ¬ (e.id = i) := fun he => h (by simp [he])
      have h2 : i ∉ l.map TimeEntry.id := fun hm => h (by simp [hm])
      simp only [setEndTime, List.map_cons, if_neg h1] at ih ⊢
      rw [ih h2]

theorem length_filter_setEndTime {l : List TimeEntry} {a : TimeEntry} (t : Sec)
    (hnd : (l.map TimeEntry.id).Nodup) (hmem : a ∈ l) (hact : a.endTime = none) :
    ((setEndTime l a.id t).filter (fun e => e.endTime.isNone)).length
      = (l.filter (fun e => e.endTime.isNone)).length - 1 := by
  induction l with
  | nil => cases hmem
  | cons e l ih =>
      rw [List.map_cons, List.nodup_cons] at hnd
      rcases List.mem_cons.mp hmem with rfl | hmem2
      · have hrest : a.id ∉ l.map TimeEntry.id := hnd.1
        have htl : setEndTime l a.id t = l := setEndTime_not_mem l a.id t hrest
        simp only [setEndTime, List.map_cons, if_pos rfl] at htl ⊢
        rw [htl]
        simp [List.filter_cons, hact]
      · have hne : ¬ (e.id = a.id) := by
          intro he
          exact hnd.1 (he ▸ (List.mem_map.mpr ⟨a, hmem2, rfl⟩))
        have hpos : 1 ≤ (l.filter (fun e => e.endTime.isNone)).length := by
          have hmf : a ∈ l.filter (fun e => e.endTime.isNone) :=
            List.mem_filter.mpr ⟨hmem2, by simp [hact]⟩
          have := List.ne_nil_of_mem hmf
          cases hl : l.filter (fun e => e.endTime.isNone) with
          | nil => exact absurd hl this
          | cons _ _ => simp
        have htail := ih hnd.2 hmem2
        simp only [setEndTime, List.map_cons, if_neg hne] at htail ⊢
        rw [List.filter_cons, List.filter_cons]
        by_cases hce : e.endTime.isNone = true <;> simp [hce, htail] <;> omega

theorem addTagLink_entries (st : Store) (i : Nat) (n : String) :
    (addTagLink st i n).entries = st.entries
      ∧ (addTagLink st i n).nextEntryId = st.nextEntryId := by
  simp only [addTagLink, createTag]
  split <;> simp

theorem foldl_addTagLink_entries (ts : List String) :
    ∀ (st : Store) (i : Nat),
      (ts.foldl (fun s name => addTagLink s i name) st).entries = st.entries
        ∧ (ts.foldl (fun s name => addTagLink s i name) st).nextEntryId = st.nextEntryId := by
  induction ts with
  | nil => intro st i; exact ⟨rfl, rfl⟩
  | cons n ts ih =>
      intro st i
      rw [List.foldl_cons]
      rcases ih (addTagLink st i n) i with ⟨h1, h2⟩
      rcases addTagLink_entries st i n with ⟨h3, h4⟩
      exact ⟨h1.trans h3, h2.trans h4⟩

theorem updateTags_entries (st : Store) (i : Nat) (ts : List String) :
    (updateTags st i ts).entries = st.entries
      ∧ (updateTags st i ts).nextEntryId = st.nextEntryId := by
  simp only [updateTags, deleteOrphanedTags]
  exact foldl_addTagLink_entries ts _ i

theorem updateTags_nil_tagLinks (st : Store) (i : Nat) :
    ((updateTags st i []).tagLinks).filter (fun l => l.1 = i) = [] := by
  simp only [updateTags, deleteOrphanedTags, List.foldl_nil]
  rw [List.filter_filter]
  apply List.filter_eq_nil_iff.mpr
  intro a _
  by_cases h : a.1 = i <;> simp [h]

theorem activeCount_updateTags (st : Store) (i : Nat) (ts : List String) :
    activeCount (updateTags st i ts) = activeCount st := by
  unfold activeCount
  rw [(updateTags_entries st i ts).1]

theorem startTimer_eq_none {st : Store} {now : Sec} {d : String} {c : Option Int}
    (hga : GetActiveTimeEntry st = none) :
    StartTimer st now d c
      = updateTags
          { st with
              entries := st.entries
                ++ [⟨st.nextEntryId, if d = "" then "No description" else d, now, none, c⟩],
              nextEntryId := st.nextEntryId + 1 }
          st.nextEntryId (parseTags (if d = "" then "No description" else d)) := by
  unfold StartTimer
  rw [hga]

theorem startTimer_eq_some {st : Store} {now : Sec} {d : String} {c : Option Int}
    {a : TimeEntry} (hga : GetActiveTimeEntry st = some a) :
    StartTimer st now d c
      = updateTags
          { st with
              entries := setEndTime st.entries a.id now
                ++ [⟨st.nextEntryId, if d = "" then "No description" else d, now, none, c⟩],
              nextEntryId := st.nextEntryId + 1 }
          st.nextEntryId (parseTags (if d = "" then "No description" else d)) := by
  unfold StartTimer
  rw [hga]

theorem stopTimer_eq_none {st : Store} {now : Sec}
    (hga : GetActiveTimeEntry st = none) : StopTimer st now = st := by
  unfold StopTimer
  rw [hga]

theorem stopTimer_eq_some {st : Store} {now : Sec} {a : TimeEntry}
    (hga : GetActiveTimeEntry st = some a) :
    StopTimer st now = { st with entries := setEndTime st.entries a.id now } := by
  unfold StopTimer
  rw [hga]

theorem active_mem_pos {st : Store} {a : TimeEntry}
    (hga : GetActiveTimeEntry st = some a) : 1 ≤ activeCount st := by
  obtain ⟨hmem, hact⟩ := getActive_mem hga
  have hmf : a ∈ st.entries.filter (fun e => e.endTime.isNone) :=
    List.mem_filter.mpr ⟨hmem, by simp [hact]⟩
  have hne := List.ne_nil_of_mem hmf
  unfold activeCount
  cases hl : st.entries.filter (fun e => e.endTime.isNone) with
  | nil => exact absurd hl hne
  | cons _ _ => simp

theorem startTimer_props_aux (st : Store) {S : Store} (L : List TimeEntry) (ne : TimeEntry)
    (hSe : S.entries = L ++ [ne]) (hSn : S.nextEntryId = st.nextEntryId + 1)
    (hL0 : (L.filter (fun e : TimeEntry => e.endTime.isNone)).length = 0)
    (hLid : L.map TimeEntry.id = st.entries.map TimeEntry.id)
    (hne_id : ne.id = st.nextEntryId) (hne_end : ne.endTime = none)
    (hnd : (st.entries.map TimeEntry.id).Nodup)
    (hlt : ∀ e ∈ st.entries, e.id < st.nextEntryId) :
    activeCount S = 1 ∧ Inv S := by
  have hcount : activeCount S = 1 := by
    unfold activeCount
    rw [hSe, List.filter_append]
    simp [hL0, hne_end]
  refine ⟨hcount, ⟨?_, ?_⟩, by omega⟩
  · rw [hSe, List.map_append, hLid]
    refine List.Nodup.append hnd (by simp) ?_
    intro x hx hy
    simp only [List.map_cons, List.map_nil, List.mem_singleton] at hy
    subst hy
    rcases List.mem_map.mp hx with ⟨e, he, hei⟩
    have := hlt e he
    omega
  · intro e he
    rw [hSe] at he
    rw [hSn]
    rcases List.mem_append.mp he with hl | hr
    · have hin : e.id ∈ st.entries.map TimeEntry.id := by
        rw [← hLid]
        exact List.mem_map.mpr ⟨e, hl, rfl⟩
      rcases List.mem_map.mp hin with ⟨u, hu, hui⟩
      have := hlt u hu
      omega
    · simp only [List.mem_singleton] at hr
      subst hr
      omega

theorem startTimer_props {st : Store} (hinv : Inv st) (now : Sec) (d : String)
    (c : Option Int) :
    activeCount (StartTimer st now d c) = 1 ∧ Inv (StartTimer st now d c) := by
  obtain ⟨⟨hnd, hlt⟩, hle⟩ := hinv
  cases hga : GetActiveTimeEntry st with
  | none =>
      have h0 : activeCount st = 0 := (getActive_eq_none_iff st).mp hga
      refine startTimer_props_aux st st.entries
        ⟨st.nextEntryId, if d = "" then "No description" else d, now, none, c⟩
        ?_ ?_ ?_ rfl rfl rfl hnd hlt
      · rw [startTimer_eq_none hga, (updateTags_entries _ _ _).1]
      · rw [startTimer_eq_none hga, (updateTags_entries _ _ _).2]
      · simpa [activeCount] using h0
  | some a =>
      obtain ⟨hmem, hact⟩ := getActive_mem hga
      have h1 := active_mem_pos hga
      refine startTimer_props_aux st (setEndTime st.entries a.id now)
        ⟨st.nextEntryId, if d = "" then "No description" else d, now, none, c⟩
        ?_ ?_ ?_ (setEndTime_map_id _ _ _) rfl rfl hnd hlt
      · rw [startTimer_eq_some hga, (updateTags_entries _ _ _).1]
      · rw [startTimer_eq_some hga, (updateTags_entries _ _ _).2]
      · have hdec := length_filter_setEndTime now hnd hmem hact
        unfold activeCount at hle h1
        omega

theorem stopTimer_inv {st : Store} (hinv : Inv st) (now : Sec) : Inv (StopTimer st now) := by
  obtain ⟨⟨hnd, hlt⟩, hle⟩ := hinv
  cases hga : GetActiveTimeEntry st with
  | none => rw [stopTimer_eq_none hga]; exact ⟨⟨hnd, hlt⟩, hle⟩
  | some a =>
      obtain ⟨hmem, hact⟩ := getActive_mem hga
      rw [stopTimer_eq_some hga]
      refine ⟨⟨?_, ?_⟩, ?_⟩
      · simpa [setEndTime_map_id] using hnd
      · intro e he
        dsimp only at he ⊢
        have hin : e.id ∈ st.entries.map TimeEntry.id := by
          rw [← setEndTime_map_id st.entries a.id now]
          exact List.mem_map.mpr ⟨e, he, rfl⟩
        rcases List.mem_map.mp hin with ⟨u, hu, hui⟩
        have := hlt u hu
        omega
      · have hdec := length_filter_setEndTime now hnd hmem hact
        unfold activeCount at hle ⊢
        dsimp only
        omega

theorem runOps_inv (ops : List TimerOp) :
    ∀ st : Store, Inv st → Inv (runOps st ops) := by
  induction ops with
  | nil => intro st h; exact h
  | cons op ops ih =>
      intro st h
      rw [runOps, List.foldl_cons]
      cases op with
      | start now d c => exact ih _ ((startTimer_props h now d c).2)
      | stop now => exact ih _ (stopTimer_inv h now)

theorem inv_emptyStore : Inv emptyStore := by
  refine ⟨⟨?_, ?_⟩, ?_⟩
  · simp [emptyStore]
  · intro e he; simp [emptyStore] at he
  · simp [activeCount, emptyStore]

theorem runOps_starts_activeCount (ops : List TimerOp) :
    ∀ st : Store, Inv st → ops ≠ [] → (∀ op ∈ ops, op.isStart) →
      activeCount (runOps st ops) = 1 := by
  induction ops with
  | nil => intro st _ h _; exact absurd rfl h
  | cons op ops ih =>
      intro st hinv _ hall
      have hst : op.isStart := hall op (List.mem_cons_self op ops)
      cases op with
      | stop now => cases hst
      | start now d c =>
          rw [runOps, List.foldl_cons]
          cases ops with
          | nil =>
              simpa [runOps] using (startTimer_props hinv now d c).1
          | cons op2 ops2 =>
              exact ih _ ((startTimer_props hinv now d c).2) (by simp)
                (fun o ho => hall o (List.mem_cons_of_mem _ ho))

/-- C1 -- Starting from the empty store, any sequence of `StartTimer` and
`StopTimer` operations leaves at most one entry with a null end time; a
`StartTimer` that finds an active entry closes it with `now` before
appending the new running entry (which becomes the last stored entry);
after a nonempty sequence of Starts with no Stops exactly one entry is
running. -/
theorem single_active_invariant :
    (∀ ops : List TimerOp, activeCount (runOps emptyStore ops) ≤ 1)
      ∧ (∀ (st : Store) (now : Sec) (d : String) (c : Option Int) (a : TimeEntry),
          GetActiveTimeEntry st = some a →
            { a with endTime := some now } ∈ (StartTimer st now d c).entries
              ∧ (StartTimer st now d c).entries.getLast?
                  = some ⟨st.nextEntryId, if d = "" then "No description" else d, now, none, c⟩)
      ∧ (∀ ops : List TimerOp, ops ≠ [] → (∀ op ∈ ops, op.isStart) →
          activeCount (runOps emptyStore ops) = 1) := by
  refine ⟨?_, ?_, ?_⟩
  · intro ops
    exact (runOps_inv ops emptyStore inv_emptyStore).2
  · intro st now d c a hga
    have hents : (StartTimer st now d c).entries
        = setEndTime st.entries a.id now
          ++ [⟨st.nextEntryId, if d = "" then "No description" else d, now, none, c⟩] := by
      rw [startTimer_eq_some hga, (updateTags_entries _ _ _).1]
    constructor
    · rw [hents]
      apply List.mem_append_left
      have hmem := (getActive_mem hga).1
      unfold setEndTime
      exact List.mem_map.mpr ⟨a, hmem, by simp⟩
    · rw [hents]
      exact List.getLast?_concat _
  · intro ops hne hall
    exact runOps_starts_activeCount ops emptyStore inv_emptyStore hne hall

/-- Witness for C1: a concrete `StartTimer` over a store with one running
entry closes that entry and appends the new running one, and two
sequential Starts leave exactly one running entry. -/
theorem single_active_invariant_witness :
    ((⟨1, "w", 0, some 5, none⟩ : TimeEntry)
        ∈ (StartTimer ⟨[⟨1, "w", 0, none, none⟩], [], [], [], 2, 1, 1⟩ 5 "next" none).entries
      ∧ (StartTimer ⟨[⟨1, "w", 0, none, none⟩], [], [], [], 2, 1, 1⟩ 5 "next" none).entries.getLast?
          = some ⟨2, "next", 5, none, none⟩)
      ∧ activeCount (runOps emptyStore [TimerOp.start 0 "a" none, TimerOp.start 1 "b" none]) = 1 := by
  constructor
  · have h := single_active_invariant.2.1
      ⟨[⟨1, "w", 0, none, none⟩], [], [], [], 2, 1, 1⟩ 5 "next" none
      ⟨1, "w", 0, none, none⟩ (by decide)
    simpa using h
  · exact single_active_invariant.2.2 [TimerOp.start 0 "a" none, TimerOp.start 1 "b" none]
      (by simp) (by
        intro op hop
        simp only [List.mem_cons, List.not_mem_nil, or_false] at hop
        rcases hop with rfl | rfl <;> trivial)

/-- C10 -- `StartTimer` with an empty description stores "No description"
(hence the new entry gets no tag links), and any non-empty description is
stored verbatim. -/
theorem startTimer_default_description :
    (∀ (st : Store) (now : Sec) (c : Option Int),
        ((StartTimer st now "" c).entries.getLast?).map TimeEntry.description
            = some "No description"
          ∧ (StartTimer st now "" c).tagLinks.filter (fun l => l.1 = st.nextEntryId) = [])
      ∧ parseTags "No description" = []
      ∧ ∀ (st : Store) (now : Sec) (c : Option Int) (d : String), d ≠ "" →
          ((StartTimer st now d c).entries.getLast?).map TimeEntry.description = some d := by
  have hpt : parseTags (if ("" : String) = "" then "No description" else "") = [] := by decide
  refine ⟨fun st now c => ⟨?_, ?_⟩, by decide, ?_⟩
  · cases hga : GetActiveTimeEntry st with
    | none =>
        rw [startTimer_eq_none hga, (updateTags_entries _ _ _).1, List.getLast?_concat]
        rfl
    | some a =>
        rw [startTimer_eq_some hga, (updateTags_entries _ _ _).1, List.getLast?_concat]
        rfl
  · cases hga : GetActiveTimeEntry st with
    | none =>
        rw [startTimer_eq_none hga, hpt]
        exact updateTags_nil_tagLinks _ _
    | some a =>
        rw [startTimer_eq_some hga, hpt]
        exact updateTags_nil_tagLinks _ _
  · intro st now c d hd
    cases hga : GetActiveTimeEntry st with
    | none =>
        rw [startTimer_eq_none hga, (updateTags_entries _ _ _).1, List.getLast?_concat]
        simp [hd]
    | some a =>
        rw [startTimer_eq_some hga, (updateTags_entries _ _ _).1, List.getLast?_concat]
        simp [hd]

/-- Witness for C10: the non-empty-description clause at a concrete input. -/
theorem startTimer_default_description_witness :
    ((StartTimer emptyStore 3 "write spec" none).entries.getLast?).map TimeEntry.description
      = some "write spec" :=
  startTimer_default_description.2.2 emptyStore 3 none "write spec" (by decide)

/-! ## String helpers of the CSV layer -/

/-- Go `strings.TrimSpace`: drop whitespace from both ends. -/
def goTrim (s : String) : String :=
  String.mk (((s.data.dropWhile Char.isWhitespace).reverse.dropWhile Char.isWhitespace).reverse)

/-- The case-insensitive column map built by `ImportCSV`/`PreviewCSV`:
`colMap[strings.ToLower(strings.TrimSpace(h))] = i` for each header cell
(later columns win on duplicate names, as for a Go map written in order). -/
def colMapList (header : List String) : List (String × Nat) :=
  header.enum.map (fun p => (lowerStr (goTrim p.2), p.1))

def lookupLast (cm : List (String × Nat)) (k : String) : Option Nat :=
  cm.foldl (fun acc p => if p.1 = k then some p.2 else acc) none

/-- The row-local `getVal` helper: trimmed cell under the named column, or
`""` when the column is absent or the row is short. -/
def getVal (cm : List (String × Nat)) (record : List String) (name : String) : String :=
  match lookupLast cm name with
  | some idx => goTrim (record.getD idx "")
  | none => ""

/-! ## Decimal integers (`strconv.FormatInt` / `strconv.ParseInt`) -/

def parseNatAcc (cs : List Char) : Nat :=
  cs.foldl (fun a c => a * 10 + (c.toNat - 48)) 0

/-- Digit-string part of `strconv.ParseInt` (base 10, bitSize 64).  The Go
call site ignores the error, so a syntax error yields `0` and an
out-of-range value yields the clamped `±(2^63 - 1 / -2^63)` result that
`ParseInt` returns alongside `ErrRange`. -/
def parseIntCore (ds : List Char) (neg : Bool) : Int :=
  if ds ≠ [] ∧ ds.all Char.isDigit then
    let v : Int := parseNatAcc ds
    if neg then max (-(2 ^ 63)) (-v) else min (2 ^ 63 - 1) v
  else 0

/-- `strconv.ParseInt(s, 10, 64)` with the error ignored, as in
`id, _ := strconv.ParseInt(idStr, 10, 64)`. -/
def parseIntGo (s : String) : Int :=
  match s.data with
  | [] => 0
  | c :: rest =>
      if c = '+' then parseIntCore rest false
      else if c = '-' then parseIntCore rest true
      else parseIntCore (c :: rest) false

/-! ## `parseFlexTime` and RFC3339 formatting -/

def num2 (a b : Char) : Option Nat :=
  if a.isDigit ∧ b.isDigit then some ((a.toNat - 48) * 10 + (b.toNat - 48)) else none

def num4 (a b c d : Char) : Option Nat :=
  if a.isDigit ∧ b.isDigit ∧ c.isDigit ∧ d.isDigit then
    some ((a.toNat - 48) * 1000 + (b.toNat - 48) * 100 + (c.toNat - 48) * 10 + (d.toNat - 48))
  else none

/-- The date-validity checks of Go `time.Parse` (month and day-of-month in
range). -/
def validDateB (y m d : Nat) : Bool :=
  1 ≤ m && m ≤ 12 && 1 ≤ d && (d : Int) ≤ daysIn (y : Int) (m : Int)

/-- Zone suffix after a full date-time: empty (naive layouts), `Z`, or
`±HH:MM` (the RFC3339 layout, which also requires the `T` separator). -/
def parseZone (base : Sec) (sep : Char) : List Char → Option Sec
  | [] => some base
  | [z] => if z = 'Z' ∧ sep = 'T' then some base else none
  | [sg, o1, o2, se, p1, p2] =>
      if sep = 'T' ∧ se = ':' ∧ (sg = '+' ∨ sg = '-') then do
        let oh ← num2 o1 o2
        let om ← num2 p1 p2
        if oh ≤ 23 ∧ om ≤ 59 then
          let off : Int := oh * 3600 + om * 60
          some (base + (if sg = '-' then off else -off))
        else none
      else none
  | _ => none

/-- Optional `:SS` part; its absence is only allowed by the
`"2006-01-02 15:04"` layout (space separator, nothing after minutes). -/
def parseSeconds (y m d h n : Nat) (sep : Char) : List Char → Option Sec
  | [] => if sep = ' ' then some (mkTime y m d h n 0) else none
  | sd :: s1 :: s2 :: rest3 =>
      if sd = ':' then do
        let sec ← num2 s1 s2
        if sec ≤ 59 then parseZone (mkTime y m d h n sec) sep rest3 else none
      else none
  | _ => none

/-- Optional clock part after the date: empty (the `"2006-01-02"` layout)
or `sep HH:MM…` with `sep` a space or `T`. -/
def parseClockPart (y m d : Nat) : List Char → Option Sec
  | [] => some (mkTime y m d 0 0 0)
  | sep :: h1 :: h2 :: sc :: n1 :: n2 :: rest2 =>
      if (sep = ' ' ∨ sep = 'T') ∧ sc = ':' then do
        let h ← num2 h1 h2
        let n ← num2 n1 n2
        if h ≤ 23 ∧ n ≤ 59 then parseSeconds y m d h n sep rest2 else none
      else none
  | _ => none

/-- `parseFlexTime` (service.go 584-604): try `time.RFC3339`,
`"2006-01-02 15:04:05"`, `"2006-01-02T15:04:05"`, `"2006-01-02 15:04"`,
`"2006-01-02"`, each with `time.Parse` and then `time.ParseInLocation`.
The five layouts accept pairwise disjoint input shapes, so they are
modelled as one combined parser; a layout without an explicit zone that
matches at all already succeeds under `time.Parse`, so naive times take
the model's single (UTC-equivalent) location.  Range checks mirror
`time.Parse`; fractional seconds are not modelled. -/
def parseFlexTime (s : String) : Option Sec :=
  match s.data with
  | y1 :: y2 :: y3 :: y4 :: sa :: m1 :: m2 :: sb :: d1 :: d2 :: rest =>
      if sa = '-' ∧ sb = '-' then do
        let y ← num4 y1 y2 y3 y4
        let m ← num2 m1 m2
        let d ← num2 d1 d2
        if validDateB y m d then parseClockPart y m d rest else none
      else none
  | _ => none

/-- The instant's civil year lies in 1..9999 and its civil decomposition
round-trips, so `formatRFC3339` is faithful to Go for it.  Decidable, and
true of every instant Go itself can format with a four-digit year. -/
def TimeOK (t : Sec) : Prop :=
  let c := civilOf t
  1 ≤ c.1 ∧ c.1 ≤ 9999 ∧ 1 ≤ c.2.1 ∧ c.2.1 ≤ 12 ∧ 1 ≤ c.2.2 ∧ c.2.2 ≤ daysIn c.1 c.2.1
    ∧ daysFromCivil c.1 c.2.1 c.2.2 = t / 86400

instance decTimeOK (t : Sec) : Decidable (TimeOK t) := by
  unfold TimeOK
  exact inferInstance

/-- The joined category display name of an entry (`LEFT JOIN categories`):
`none` models a NULL `sql.NullString`. -/
def categoryNameOf (st : Store) (cid : Option Int) : Option String :=
  cid.bind (fun i => (st.categories.find? (fun c => c.id = i)).map Category.name)

/-- `GetTimeEntry`: look up an entry by id (`sql.ErrNoRows` becomes
`none`). -/
def findEntry (st : Store) (id : Int) : Option TimeEntry :=
  st.entries.find? (fun e => (e.id : Int) = id)

structure CSVPreviewEntry where
  id : Int
  description : String
  startTime : Sec
  endTime : Option Sec
  category : String
  status : String
deriving DecidableEq

/-- One loop iteration of `PreviewCSV` (service.go 518-579): `none` means
the row produces no preview entry (skipped as empty, failing start-time
parse, or an exact match of the stored entry). -/
def previewRow (st : Store) (cm : List (String × Nat)) (record : List String) :
    Option CSVPreviewEntry :=
  let idStr := getVal cm record "id"
  let description := getVal cm record "description"
  let startTimeStr := getVal cm record "start_time"
  let endTimeStr := getVal cm record "end_time"
  let categoryName := getVal cm record "category"
  if description = "" ∧ startTimeStr = "" then none
  else
    match parseFlexTime startTimeStr with
    | none => none
    | some startTime =>
        let endTime : Option Sec :=
          if endTimeStr = "" then none
          else match parseFlexTime endTimeStr with
               | some et => some et
               | none => none
        let id := parseIntGo idStr
        if 0 < id then
          match findEntry st id with
          | some existing =>
              if existing.description = description ∧ existing.startTime = startTime
                  ∧ existing.endTime = endTime
                  ∧ (match categoryNameOf st existing.categoryID with
                      | some nm => nm == categoryName
                      | none => categoryName == "") = true then
                none
              else some ⟨id, description, startTime, endTime, categoryName, "Updated"⟩
          | none => some ⟨id, description, startTime, endTime, categoryName, "New"⟩
        else some ⟨id, description, startTime, endTime, categoryName, "New"⟩

/-- `PreviewCSV`: header-or-empty inputs give an empty preview; otherwise
every row after the header is classified independently. -/
def PreviewCSV (st : Store) (records : List (List String)) : List CSVPreviewEntry :=
  if records.length < 2 then []
  else
    match records with
    | [] => []
    | header :: rows => rows.filterMap (previewRow st (colMapList header))

/-- `GetCategoryByName` + `CreateCategory` get-or-create path of
`ImportCSV` (new categories get the default color `#cccccc`). -/
def getOrCreateCategory (st : Store) (name : String) : Int × Store :=
  match st.categories.find? (fun c => c.name = name) with
  | some cat => (cat.id, st)
  | none =>
      (st.nextCategoryId,
        { st with
            categories := st.categories ++ [⟨st.nextCategoryId, name, "#cccccc"⟩],
            nextCategoryId := st.nextCategoryId + 1 })

/-- Modelled from the spec: `UpsertTimeEntry` — "overwrite the existing
entry with this id's fields (a true update path, not insert-or-ignore)";
a row id not present in the store is inserted under that id. -/
def upsertTimeEntry (st : Store) (id : Nat) (description : String) (startTime : Sec)
    (endTime : Option Sec) (catID : Option Int) : TimeEntry × Store :=
  let e : TimeEntry := ⟨id, description, startTime, endTime, catID⟩
  match st.entries.find? (fun x => x.id = id) with
  | some _ => (e, { st with entries := st.entries.map (fun x => if x.id = id then e else x) })
  | none =>
      (e, { st with entries := st.entries ++ [e], nextEntryId := max st.nextEntryId (id + 1) })

/-- Modelled from the spec: `CreateTimeEntryFull` — insert a new entry with
all fields, under a fresh autoincrement id. -/
def createTimeEntryFull (st : Store) (description : String) (startTime : Sec)
    (endTime : Option Sec) (catID : Option Int) : TimeEntry × Store :=
  let e : TimeEntry := ⟨st.nextEntryId, description, startTime, endTime, catID⟩
  (e, { st with entries := st.entries ++ [e], nextEntryId := st.nextEntryId + 1 })

deriving instance DecidableEq for Except

/-- One loop iteration of `ImportCSV` (service.go 415-494), applied to the
transaction-local store: rows with empty description and start time are
skipped; a non-empty unparseable time field fails the row (and with it the
import); category get-or-create, upsert/insert, then tag resync. -/
def importRow (st : Store) (cm : List (String × Nat)) (record : List String) :
    Except String Store :=
  let idStr := getVal cm record "id"
  let description := getVal cm record "description"
  let startTimeStr := getVal cm record "start_time"
  let endTimeStr := getVal cm record "end_time"
  let categoryName := getVal cm record "category"
  if description = "" ∧ startTimeStr = "" then .ok st
  else
    match parseFlexTime startTimeStr with
    | none => .error ("invalid start_time " ++ startTimeStr)
    | some startTime =>
        let endRes : Except String (Option Sec) :=
          if endTimeStr = "" then .ok none
          else
            match parseFlexTime endTimeStr with
            | some et => .ok (some et)
            | none => .error ("invalid end_time " ++ endTimeStr)
        match endRes with
        | .error e => .error e
        | .ok endTime =>
            let p :=
              if categoryName = "" then ((none : Option Int), st)
              else
                let q := getOrCreateCategory st categoryName
                (some q.1, q.2)
            let id := parseIntGo idStr
            let r :=
              if 0 < id then upsertTimeEntry p.2 id.toNat description startTime endTime p.1
              else createTimeEntryFull p.2 description startTime endTime p.1
            .ok (updateTags r.2 r.1.id (parseTags description))

/-- The row loop of `ImportCSV`, threading the transaction-local store and
stopping at the first error. -/
def importRows (st : Store) (cm : List (String × Nat)) :
    List (List String) → Except String Store
  | [] => .ok st
  | r :: rs =>
      match importRow st cm r with
      | .error e => .error e
      | .ok st1 => importRows st1 cm rs

/-- `ImportCSV` (service.go 391-497): fewer than two records is a no-op;
otherwise all rows run inside one transaction whose result is committed
only when every row succeeded. -/
def ImportCSV (st : Store) (records : List (List String)) : Except String Store :=
  if records.length < 2 then .ok st
  else
    match records with
    | [] => .ok st
    | header :: rows => importRows st (colMapList header) rows

/-- The store visible after `ImportCSV` returns: the deferred rollback
discards the transaction on error, commit publishes it on success. -/
def importResult (st : Store) (records : List (List String)) : Store :=
  match ImportCSV st records with
  | .ok st1 => st1
  | .error _ => st


/-- C2 -- `ImportCSV` is atomic: whenever it returns an error (in the pure
model, a non-empty unparseable time field; persistence failures are not
modelled), the published store is exactly the pre-call store — no row of
the input is applied.  A failing row makes `importRow` error, and a row
error aborts the whole batch. -/
theorem importCSV_atomic :
    (∀ (st : Store) (records : List (List String)) (msg : String),
        ImportCSV st records = .error msg → importResult st records = st)
      ∧ (∀ (st : Store) (cm : List (String × Nat)) (record : List String),
          getVal cm record "description" ≠ "" →
          parseFlexTime (getVal cm record "start_time") = none →
            importRow st cm record
              = .error ("invalid start_time " ++ getVal cm record "start_time"))
      ∧ (∀ (st : Store) (cm : List (String × Nat)) (msg : String) (r : List String)
            (rs : List (List String)), importRow st cm r = .error msg →
            importRows st cm (r :: rs) = .error msg) := by
  refine ⟨?_, ?_, ?_⟩
  · intro st records msg h
    unfold importResult
    rw [h]
  · intro st cm record hdesc hparse
    unfold importRow
    rw [if_neg (fun hc => hdesc hc.1), hparse]
  · intro st cm msg r rs h
    show (match importRow st cm r with
          | Except.error e => Except.error e
          | Except.ok st1 => importRows st1 cm rs) = Except.error msg
    rw [h]

/-- Witness for C2: a CSV whose first row is valid and whose second row has
an unparseable start time errors, and the published store is unchanged. -/
theorem importCSV_atomic_witness :
    ImportCSV emptyStore
        [["id", "description", "start_time", "end_time", "category"],
          ["", "good", "2024-01-02", "", "Work"],
          ["", "bad", "2024-99-02", "", ""]]
      = .error "invalid start_time 2024-99-02"
    ∧ importResult emptyStore
        [["id", "description", "start_time", "end_time", "category"],
          ["", "good", "2024-01-02", "", "Work"],
          ["", "bad", "2024-99-02", "", ""]]
      = emptyStore :=
  ⟨by decide, importCSV_atomic.1 emptyStore _ "invalid start_time 2024-99-02" (by decide)⟩

theorem importRow_skip {cm : List (String × Nat)} {record : List String}
    (h1 : getVal cm record "description" = "")
    (h2 : getVal cm record "start_time" = "") (st : Store) :
    importRow st cm record = .ok st := by
  unfold importRow
  rw [if_pos ⟨h1, h2⟩]

theorem importRows_skip {cm : List (String × Nat)} {row : List String}
    (h1 : getVal cm row "description" = "")
    (h2 : getVal cm row "start_time" = "") (post : List (List String)) :
    ∀ (pre : List (List String)) (st : Store),
      importRows st cm (pre ++ row :: post) = importRows st cm (pre ++ post) := by
  intro pre
  induction pre with
  | nil =>
      intro st
      show (match importRow st cm row with
            | Except.error e => Except.error e
            | Except.ok st1 => importRows st1 cm post) = importRows st cm post
      rw [importRow_skip h1 h2 st]
  | cons r rest ih =>
      intro st
      show (match importRow st cm r with
            | Except.error e => Except.error e
            | Except.ok st1 => importRows st1 cm (rest ++ row :: post))
          = (match importRow st cm r with
            | Except.error e => Except.error e
            | Except.ok st1 => importRows st1 cm (rest ++ post))
      cases importRow st cm r with
      | error e => rfl
      | ok st1 => exact ih st1

/-- C7 -- a CSV row whose `description` and `start_time` values are both
missing (empty after trimming) is skipped: importing with the row present
gives exactly the same result as importing without it — it produces no
entry, fails nothing, and the remaining rows are still imported. -/
theorem importCSV_skips_empty_rows
    (st : Store) (header : List String) (pre post : List (List String)) (row : List String)
    (h1 : getVal (colMapList header) row "description" = "")
    (h2 : getVal (colMapList header) row "start_time" = "") :
    ImportCSV st (header :: (pre ++ row :: post)) = ImportCSV st (header :: (pre ++ post)) := by
  unfold ImportCSV
  rw [if_neg (by simp only [List.length_cons, List.length_append]; omega)]
  cases hpp : pre ++ post with
  | nil =>
      rw [if_pos (by simp [hpp])]
      obtain ⟨hpre, hpost⟩ := List.append_eq_nil.mp hpp
      subst hpre
      subst hpost
      show (match importRow st (colMapList header) row with
            | Except.error e => Except.error e
            | Except.ok st1 => importRows st1 (colMapList header) []) = Except.ok st
      rw [importRow_skip h1 h2 st]
      rfl
  | cons a l =>
      rw [if_neg (by simp only [List.length_cons, hpp]; omega)]
      rw [← hpp]
      show importRows st (colMapList header) (pre ++ row :: post)
          = importRows st (colMapList header) (pre ++ post)
      exact importRows_skip h1 h2 post pre st

/-- Witness for C7: a concrete import where the empty row sits between a
header and a valid row. -/
theorem importCSV_skips_empty_rows_witness :
    ImportCSV emptyStore
        [["id", "description", "start_time", "end_time", "category"],
          ["", "", "", "", ""],
          ["", "work", "2024-01-02", "", ""]]
      = ImportCSV emptyStore
        [["id", "description", "start_time", "end_time", "category"],
          ["", "work", "2024-01-02", "", ""]] :=
  importCSV_skips_empty_rows emptyStore _ [] [["", "work", "2024-01-02", "", ""]]
    ["", "", "", "", ""] (by decide) (by decide)


/-- Counterexample to C8 as stated: a row whose non-empty `end_time` value
parses under none of the accepted formats is NOT omitted from the preview —
it is kept (with its end treated as absent), so the preview is non-empty
where the claim demands omission. -/
theorem previewCSV_bad_end_kept :
    PreviewCSV emptyStore
        [["id", "description", "start_time", "end_time", "category"],
          ["", "task", "2024-01-02", "nonsense", ""]]
      = [⟨0, "task", mkTime 2024 1 2 0 0 0, none, "", "New"⟩]
    ∧ PreviewCSV emptyStore
        [["id", "description", "start_time", "end_time", "category"],
          ["", "task", "2024-01-02", "nonsense", ""]]
      ≠ [] := ⟨by decide, by decide⟩

/-- C8 (amended) -- `PreviewCSV` never aborts, but only a failing
`start_time` omits a row: a row whose start time fails to parse yields no
preview entry; every row after the header is classified independently; and
a row whose non-empty `end_time` fails to parse is kept with its end
treated as absent (it can only disappear by exactly matching the stored
entry).  `ImportCSV`, in contrast, fails the whole batch on either field
(see the import theorems). -/
theorem preview_start_skip_only :
    (∀ (st : Store) (cm : List (String × Nat)) (record : List String),
        parseFlexTime (getVal cm record "start_time") = none →
          previewRow st cm record = none)
      ∧ (∀ (st : Store) (header : List String) (rows : List (List String)),
          PreviewCSV st (header :: rows)
            = rows.filterMap (previewRow st (colMapList header)))
      ∧ (∀ (st : Store) (cm : List (String × Nat)) (record : List String)
            (p : CSVPreviewEntry),
          parseFlexTime (getVal cm record "end_time") = none →
          previewRow st cm record = some p → p.endTime = none) := by
  refine ⟨?_, ?_, ?_⟩
  · intro st cm record h
    simp only [previewRow]
    by_cases hskip : getVal cm record "description" = "" ∧ getVal cm record "start_time" = ""
    · rw [if_pos hskip]
    · rw [if_neg hskip, h]
  · intro st header rows
    cases rows with
    | nil => simp [PreviewCSV]
    | cons r rs =>
        unfold PreviewCSV
        rw [if_neg (by simp only [List.length_cons]; omega)]
  · intro st cm record p hend hsome
    simp only [previewRow] at hsome
    by_cases hskip : getVal cm record "description" = "" ∧ getVal cm record "start_time" = ""
    · rw [if_pos hskip] at hsome
      cases hsome
    · rw [if_neg hskip] at hsome
      cases hstart : parseFlexTime (getVal cm record "start_time") with
      | none =>
          rw [hstart] at hsome
          dsimp only at hsome
          cases hsome
      | some s =>
          rw [hstart] at hsome
          dsimp only at hsome
          have hE : (if getVal cm record "end_time" = "" then (none : Option Sec)
              else match parseFlexTime (getVal cm record "end_time") with
                   | some et => some et
                   | none => none) = none := by
            by_cases hempty : getVal cm record "end_time" = ""
            · rw [if_pos hempty]
            · rw [if_neg hempty, hend]
          rw [hE] at hsome
          by_cases hid : 0 < parseIntGo (getVal cm record "id")
          · rw [if_pos hid] at hsome
            cases hfind : findEntry st (parseIntGo (getVal cm record "id")) with
            | none =>
                rw [hfind] at hsome
                dsimp only at hsome
                cases hsome
                rfl
            | some existing =>
                rw [hfind] at hsome
                dsimp only at hsome
                by_cases hmatch : existing.description = getVal cm record "description"
                    ∧ existing.startTime = s
                    ∧ existing.endTime = none
                    ∧ (match categoryNameOf st existing.categoryID with
                        | some nm => nm == getVal cm record "category"
                        | none => getVal cm record "category" == "") = true
                · rw [if_pos hmatch] at hsome
                  cases hsome
                · rw [if_neg hmatch] at hsome
                  cases hsome
                  rfl
          · rw [if_neg hid] at hsome
            cases hsome
            rfl

/-- Witness for C8 (amended): the start-skip clause and the
kept-with-absent-end clause at concrete inputs. -/
theorem preview_start_skip_only_witness :
    previewRow emptyStore
        (colMapList ["id", "description", "start_time", "end_time", "category"])
        ["", "x", "bogus", "", ""] = none
    ∧ (⟨0, "task", mkTime 2024 1 2 0 0 0, none, "", "New"⟩ : CSVPreviewEntry).endTime = none :=
  ⟨preview_start_skip_only.1 emptyStore _ _ (by decide),
    preview_start_skip_only.2.2 emptyStore
      (colMapList ["id", "description", "start_time", "end_time", "category"])
      ["", "task", "2024-01-02", "nonsense", ""] _ (by decide) (by decide)⟩


/-- A stored time entry with its `time.Time` instants kept at nanosecond
resolution. -/
structure NanoTimeEntry where
  id : Nat
  description : String
  startTime : Int
  endTime : Option Int
  categoryID : Option Int
deriving DecidableEq

/-- The `LEFT JOIN categories` display name against an explicit category
table (the join involves no times). -/
def categoryNameOfN (cats : List Category) (cid : Option Int) : Option String :=
  cid.bind (fun i => (cats.find? (fun c => c.id = i)).map Category.name)

/-- The preconditions under which the exported CSV is an exact fixed point
of preview: distinct ids in the positive int64 range, instants whose
second lies in the formattable civil range, descriptions and category
names that carry no leading or trailing whitespace (preview trims every
cell), and — the condition a `time.Now()`-stamped entry violates — every
instant lies on a whole-second boundary, since RFC3339 formatting drops
the fractional part that `time.Time.Equal` still compares. -/
def ExportWFN (entries : List NanoTimeEntry) (cats : List Category) : Prop :=
  (entries.map NanoTimeEntry.id).Nodup
    ∧ ∀ e ∈ entries,
        1 ≤ e.id ∧ (e.id : Int) ≤ 2 ^ 63 - 1
          ∧ e.startTime % 1000000000 = 0
          ∧ TimeOK (e.startTime / 1000000000)
          ∧ (e.endTime.all fun u =>
              decide (u % 1000000000 = 0) && decide (TimeOK (u / 1000000000))) = true
          ∧ goTrim e.description = e.description
          ∧ ((categoryNameOfN cats e.categoryID).all fun nm => goTrim nm == nm) = true

instance decExportWFN (entries : List NanoTimeEntry) (cats : List Category) :
    Decidable (ExportWFN entries cats) := by
  unfold ExportWFN
  exact inferInstance

structure ReportFilter where
  StartDate : Sec
  EndDate : Sec
  CategoryFilter : Int
  TagIDs : List Int
deriving DecidableEq

structure CategoryBreakdown where
  CategoryID : Int
  CategoryName : String
  Color : String
  TotalSeconds : Int
  Percentage : ℚ
deriving DecidableEq

structure ReportData where
  Entries : List TimeEntry
  TotalSeconds : Int
  CategoryBreakdown : List CategoryBreakdown
  Filter : ReportFilter
deriving DecidableEq

/-- Modelled from the spec: the `ListTimeEntriesReport` SQL query is not in
the repository sources (only its caller is).  Spec §4.4 step 1: "Query
entries whose start time falls within [startDate, endDate] and matching
categoryFilter", where 0 = all, -1 = entries with no category, >0 = that
category id.  No condition on the end time appears in the spec's query
description. -/
def listTimeEntriesReport (st : Store) (f : ReportFilter) : List TimeEntry :=
  st.entries.filter (fun e =>
    decide (f.StartDate ≤ e.startTime) && decide (e.startTime ≤ f.EndDate) &&
      (f.CategoryFilter == 0
        || (f.CategoryFilter == -1 && e.categoryID == none)
        || e.categoryID == some f.CategoryFilter))

/-- `ListTagsForTimeEntry`, projected to tag ids. -/
def entryTagIDs (st : Store) (entryID : Nat) : List Int :=
  (st.tagLinks.filter (fun l => l.1 = entryID)).map (fun l => l.2)

/-- The in-memory tag filter of the report loop (AND semantics); with no
requested tags every row is kept, exactly as the Go `len(...) > 0` guard. -/
def keptRow (st : Store) (f : ReportFilter) (e : TimeEntry) : Bool :=
  f.TagIDs.all (fun tid => (entryTagIDs st e.id).contains tid)

/-- The joined category color of an entry. -/
def categoryColorOf (st : Store) (cid : Option Int) : Option String :=
  cid.bind (fun i => (st.categories.find? (fun c => c.id = i)).map Category.color)

/-- `int64(row.EndTime.Time.Sub(row.StartTime).Seconds())` for a row whose
NULL end time scanned into `sql.NullTime` is the Go zero time:
`time.Time.Sub` saturates at ±(2^63 − 1) nanoseconds, and converting the
duration to whole seconds truncates toward zero (`Int.tdiv`).  At
whole-second granularity this is exact for durations up to ±73 years and
at the saturation bounds, which covers every value the claims depend on. -/
def goSeconds (e : TimeEntry) : Int :=
  let ns := ((e.endTime.getD goZeroTime) - e.startTime) * 1000000000
  let cl := max (-9223372036854775808) (min 9223372036854775807 ns)
  Int.tdiv cl 1000000000

/-- The `categoryTotals` Go map as an association list in first-insertion
order (map iteration order is not observable in the claims): add `secs` to
the bucket of `cid`, creating it with the row's joined name/color. -/
def bumpCat (l : List CategoryBreakdown) (cid : Int) (name color : String) (secs : Int) :
    List CategoryBreakdown :=
  match l with
  | [] => [⟨cid, name, color, secs, 0⟩]
  | b :: bs =>
      if b.CategoryID = cid then { b with TotalSeconds := b.TotalSeconds + secs } :: bs
      else b :: bumpCat bs cid name color secs

structure ReportAcc where
  rows : List TimeEntry
  total : Int
  cats : List CategoryBreakdown
  noCat : Int
deriving DecidableEq

/-- One iteration of the report loop: tag-filter the row, then accumulate
its seconds into the total and into its category bucket (or the
"No Category" sum).  No branch tests `EndTime.Valid`. -/
def reportStep (st : Store) (f : ReportFilter) (acc : ReportAcc) (row : TimeEntry) :
    ReportAcc :=
  if keptRow st f row then
    let secs := goSeconds row
    match row.categoryID with
    | some cid =>
        { acc with
            rows := acc.rows ++ [row],
            total := acc.total + secs,
            cats := bumpCat acc.cats cid ((categoryNameOf st (some cid)).getD "")
                ((categoryColorOf st (some cid)).getD "") secs }
    | none =>
        { acc with
            rows := acc.rows ++ [row], total := acc.total + secs, noCat := acc.noCat + secs }
  else acc

def reportAccum (st : Store) (f : ReportFilter) : ReportAcc :=
  (listTimeEntriesReport st f).foldl (reportStep st f) ⟨[], 0, [], 0⟩

/-- `GetReport`: run the loop, then assemble the breakdown — with a
positive total every per-category bucket is listed with its percentage and
the "No Category" bucket only when positive; otherwise the percentages
stay zero and the "No Category" bucket is appended whenever it is positive
or any per-category bucket exists. -/
def GetReport (st : Store) (f : ReportFilter) : ReportData :=
  let acc := reportAccum st f
  let breakdown :=
    if 0 < acc.total then
      (acc.cats.map (fun b =>
          { b with Percentage := (b.TotalSeconds : ℚ) / (acc.total : ℚ) * 100 }))
        ++ (if 0 < acc.noCat then
              [⟨-1, "No Category", "#888888", acc.noCat,
                (acc.noCat : ℚ) / (acc.total : ℚ) * 100⟩]
            else [])
    else if 0 < acc.noCat ∨ acc.cats ≠ [] then
      acc.cats ++ [⟨-1, "No Category", "#888888", acc.noCat, 0⟩]
    else []
  ⟨acc.rows, acc.total, breakdown, f⟩

/-- The rows that survive both the (spec-modelled) query and the in-memory
tag filter. -/
def keptRows (st : Store) (f : ReportFilter) : List TimeEntry :=
  (listTimeEntriesReport st f).filter (keptRow st f)

/-- The seconds accumulated into the synthetic "No Category" bucket. -/
def uncategorizedSeconds (st : Store) (f : ReportFilter) : Int :=
  (((keptRows st f).filter (fun e => e.categoryID = none)).map goSeconds).sum


theorem bumpCat_ne_nil (l : List CategoryBreakdown) (cid : Int) (n c : String) (s : Int) :
    bumpCat l cid n c s ≠ [] := by
  cases l with
  | nil => simp [bumpCat]
  | cons b bs =>
      unfold bumpCat
      split <;> simp

theorem bumpCat_ids (l : List CategoryBreakdown) (cid : Int) (n c : String) (s : Int) :
    ∀ x ∈ (bumpCat l cid n c s).map CategoryBreakdown.CategoryID,
      x ∈ l.map CategoryBreakdown.CategoryID ∨ x = cid := by
  induction l with
  | nil =>
      intro x hx
      simp [bumpCat] at hx
      exact Or.inr hx
  | cons b bs ih =>
      intro x hx
      unfold bumpCat at hx
      by_cases hb : b.CategoryID = cid
      · rw [if_pos hb] at hx
        simp only [List.map_cons, List.mem_cons] at hx
        rcases hx with hx | hx
        · exact Or.inl (by simp [hx])
        · exact Or.inl (by simp only [List.map_cons, List.mem_cons]; exact Or.inr hx)
      · rw [if_neg hb] at hx
        simp only [List.map_cons, List.mem_cons] at hx
        rcases hx with hx | hx
        · exact Or.inl (by simp [hx])
        · rcases ih x hx with h | h
          · exact Or.inl (by simp only [List.map_cons, List.mem_cons]; exact Or.inr h)
          · exact Or.inr h

theorem bumpCat_pct (l : List CategoryBreakdown) (cid : Int) (n c : String) (s : Int)
    (h : ∀ b ∈ l, b.Percentage = 0) :
    ∀ b ∈ bumpCat l cid n c s, b.Percentage = 0 := by
  induction l with
  | nil =>
      intro b hb
      simp [bumpCat] at hb
      rw [hb]
  | cons a as ih =>
      intro b hb
      unfold bumpCat at hb
      by_cases ha : a.CategoryID = cid
      · rw [if_pos ha] at hb
        rcases List.mem_cons.mp hb with rfl | hb2
        · exact h a (List.mem_cons_self a as)
        · exact h b (List.mem_cons_of_mem a hb2)
      · rw [if_neg ha] at hb
        rcases List.mem_cons.mp hb with rfl | hb2
        · exact h b (List.mem_cons_self b as)
        · exact ih (fun x hx => h x (List.mem_cons_of_mem a hx)) b hb2

theorem reportFold_spec (st : Store) (f : ReportFilter) (l : List TimeEntry) :
    ∀ acc : ReportAcc,
      (l.foldl (reportStep st f) acc).rows = acc.rows ++ l.filter (keptRow st f)
        ∧ (l.foldl (reportStep st f) acc).total
            = acc.total + ((l.filter (keptRow st f)).map goSeconds).sum
        ∧ (l.foldl (reportStep st f) acc).noCat
            = acc.noCat + (((l.filter (keptRow st f)).filter
                (fun e => e.categoryID = none)).map goSeconds).sum
        ∧ ((l.foldl (reportStep st f) acc).cats = []
            ↔ acc.cats = [] ∧ ∀ e ∈ l.filter (keptRow st f), e.categoryID = none)
        ∧ (∀ x ∈ ((l.foldl (reportStep st f) acc).cats).map CategoryBreakdown.CategoryID,
            x ∈ acc.cats.map CategoryBreakdown.CategoryID
              ∨ some x ∈ (l.filter (keptRow st f)).map TimeEntry.categoryID)
        ∧ ((∀ b ∈ acc.cats, b.Percentage = 0) →
            ∀ b ∈ (l.foldl (reportStep st f) acc).cats, b.Percentage = 0) := by
  induction l with
  | nil =>
      intro acc
      simp
  | cons row rest ih =>
      intro acc
      rw [List.foldl_cons]
      obtain ⟨ih1, ih2, ih3, ih4, ih5, ih6⟩ := ih (reportStep st f acc row)
      by_cases hk : keptRow st f row = true
      · have hfc : (row :: rest).filter (keptRow st f)
            = row :: rest.filter (keptRow st f) := by
          simp [List.filter_cons, hk]
        rw [hfc]
        cases hcid : row.categoryID with
        | some cid =>
            have hstep : reportStep st f acc row
                = { acc with
                    rows := acc.rows ++ [row],
                    total := acc.total + goSeconds row,
                    cats := bumpCat acc.cats cid ((categoryNameOf st (some cid)).getD "")
                        ((categoryColorOf st (some cid)).getD "") (goSeconds row) } := by
              unfold reportStep
              rw [if_pos hk, hcid]
            rw [hstep] at ih1 ih2 ih3 ih4 ih5 ih6 ⊢
            refine ⟨?_, ?_, ?_, ?_, ?_, ?_⟩
            · rw [ih1]; simp
            · rw [ih2]; simp only [List.map_cons, List.sum_cons]; ring
            · rw [ih3]
              have : (row :: rest.filter (keptRow st f)).filter
                  (fun e => decide (e.categoryID = none))
                  = (rest.filter (keptRow st f)).filter
                      (fun e => decide (e.categoryID = none)) := by
                simp [List.filter_cons, hcid]
              rw [this]
            · rw [ih4]
              constructor
              · rintro ⟨h1, _⟩
                exact absurd h1 (bumpCat_ne_nil _ _ _ _ _)
              · rintro ⟨_, h2⟩
                have := h2 row (List.mem_cons_self _ _)
                rw [hcid] at this
                cases this
            · intro x hx
              rcases ih5 x hx with h | h
              · rcases bumpCat_ids _ _ _ _ _ x h with h2 | h2
                · exact Or.inl h2
                · right
                  rw [h2]
                  simp only [List.map_cons, List.mem_cons]
                  exact Or.inl hcid.symm
              · right
                simp only [List.map_cons, List.mem_cons]
                exact Or.inr h
            · intro hp
              exact ih6 (bumpCat_pct _ _ _ _ _ hp)
        | none =>
            have hstep : reportStep st f acc row
                = { acc with
                    rows := acc.rows ++ [row],
                    total := acc.total + goSeconds row,
                    noCat := acc.noCat + goSeconds row } := by
              unfold reportStep
              rw [if_pos hk, hcid]
            rw [hstep] at ih1 ih2 ih3 ih4 ih5 ih6 ⊢
            refine ⟨?_, ?_, ?_, ?_, ?_, ?_⟩
            · rw [ih1]; simp
            · rw [ih2]; simp only [List.map_cons, List.sum_cons]; ring
            · rw [ih3]
              have : (row :: rest.filter (keptRow st f)).filter
                  (fun e => decide (e.categoryID = none))
                  = row :: (rest.filter (keptRow st f)).filter
                      (fun e => decide (e.categoryID = none)) := by
                simp [List.filter_cons, hcid]
              rw [this]
              simp only [List.map_cons, List.sum_cons]
              ring
            · rw [ih4]
              constructor
              · rintro ⟨h1, h2⟩
                refine ⟨h1, ?_⟩
                intro e he
                rcases List.mem_cons.mp he with rfl | he2
                · exact hcid
                · exact h2 e he2
              · rintro ⟨h1, h2⟩
                exact ⟨h1, fun e he => h2 e (List.mem_cons_of_mem row he)⟩
            · intro x hx
              rcases ih5 x hx with h | h
              · exact Or.inl h
              · right
                simp only [List.map_cons, List.mem_cons]
                exact Or.inr h
            · exact ih6
      · have hstep : reportStep st f acc row = acc := by
          unfold reportStep
          rw [if_neg (by simp [hk])]
        have hfc : (row :: rest).filter (keptRow st f) = rest.filter (keptRow st f) := by
          simp [List.filter_cons, hk]
        rw [hstep] at ih1 ih2 ih3 ih4 ih5 ih6 ⊢
        rw [hfc]
        exact ⟨ih1, ih2, ih3, ih4, ih5, ih6⟩

theorem reportAccum_spec (st : Store) (f : ReportFilter) :
    (reportAccum st f).rows = keptRows st f
      ∧ (reportAccum st f).total = ((keptRows st f).map goSeconds).sum
      ∧ (reportAccum st f).noCat = uncategorizedSeconds st f
      ∧ ((reportAccum st f).cats = [] ↔ ∀ e ∈ keptRows st f, e.categoryID = none)
      ∧ (∀ x ∈ ((reportAccum st f).cats).map CategoryBreakdown.CategoryID,
          some x ∈ (keptRows st f).map TimeEntry.categoryID)
      ∧ (∀ b ∈ (reportAccum st f).cats, b.Percentage = 0) := by
  obtain ⟨h1, h2, h3, h4, h5, h6⟩ :=
    reportFold_spec st f (listTimeEntriesReport st f) ⟨[], 0, [], 0⟩
  refine ⟨by simpa [keptRows] using h1, by simpa [keptRows] using h2,
    by simpa [keptRows, uncategorizedSeconds] using h3,
    by simpa [keptRows] using h4, ?_, ?_⟩
  · intro x hx
    rcases h5 x hx with h | h
    · simp at h
    · simpa [keptRows] using h
  · exact h6 (by simp)


theorem ns_in_int64 {x : Int} (hb : x.natAbs ≤ 9223372036) :
    x * 1000000000 ≤ 9223372036854775807 ∧ -9223372036854775808 ≤ x * 1000000000 := by
  constructor <;> omega

theorem goSeconds_closed {e : TimeEntry} {u : Sec} (hE : e.endTime = some u)
    (hb : (u - e.startTime).natAbs ≤ 9223372036) :
    goSeconds e = u - e.startTime := by
  unfold goSeconds
  rw [hE]
  show Int.tdiv
      (max (-9223372036854775808)
        (min 9223372036854775807 ((u - e.startTime) * 1000000000))) 1000000000
    = u - e.startTime
  have h1 := (ns_in_int64 hb).1
  have h2 := (ns_in_int64 hb).2
  rw [min_eq_right h1, max_eq_right h2, Int.mul_tdiv_cancel _ (by norm_num)]

/-- Counterexample to C3 as stated: a running entry inside the queried
range contributes `int64(time.Time{}.Sub(start).Seconds())` — the
saturated value −9223372036 seconds — to `TotalSeconds`, not zero, because
the report loop never tests `EndTime.Valid` before subtracting. -/
theorem report_running_entry_nonzero :
    (GetReport ⟨[⟨1, "run", 0, none, none⟩], [], [], [], 2, 1, 1⟩
        ⟨-1, 1, 0, []⟩).TotalSeconds = -9223372036
      ∧ (((keptRows ⟨[⟨1, "run", 0, none, none⟩], [], [], [], 2, 1, 1⟩
            ⟨-1, 1, 0, []⟩).filter (fun e => e.endTime.isSome)).map
          (fun e => e.endTime.getD e.startTime - e.startTime)).sum = 0
      ∧ (GetReport ⟨[⟨1, "run", 0, none, none⟩], [], [], [], 2, 1, 1⟩
          ⟨-1, 1, 0, []⟩).TotalSeconds
        ≠ (((keptRows ⟨[⟨1, "run", 0, none, none⟩], [], [], [], 2, 1, 1⟩
              ⟨-1, 1, 0, []⟩).filter (fun e => e.endTime.isSome)).map
            (fun e => e.endTime.getD e.startTime - e.startTime)).sum :=
  ⟨by decide, by decide, by decide⟩

/-- C3 (amended) -- `GetReport` returns the tag-filtered rows and sums
`goSeconds` over all of them; when every kept entry has an end time (and
the durations avoid `time.Duration` saturation), `TotalSeconds` equals the
claimed sum of `end − start` over the kept entries with an end time.  A
kept running entry instead contributes the saturated seconds of
`time.Time{}.Sub(start)` — a large negative number, not zero (see the
counterexample). -/
theorem report_total_seconds :
    (∀ (st : Store) (f : ReportFilter),
        (GetReport st f).Entries = keptRows st f
          ∧ (GetReport st f).TotalSeconds = ((keptRows st f).map goSeconds).sum)
      ∧ (∀ (st : Store) (f : ReportFilter),
          (∀ e ∈ keptRows st f,
              ∃ u, e.endTime = some u ∧ (u - e.startTime).natAbs ≤ 9223372036) →
          (GetReport st f).TotalSeconds
            = (((keptRows st f).filter (fun e => e.endTime.isSome)).map
                (fun e => e.endTime.getD e.startTime - e.startTime)).sum) := by
  constructor
  · intro st f
    exact ⟨(reportAccum_spec st f).1, (reportAccum_spec st f).2.1⟩
  · intro st f h
    have hfilter : (keptRows st f).filter (fun e => e.endTime.isSome) = keptRows st f := by
      apply List.filter_eq_self.mpr
      intro e he
      obtain ⟨u, hu, _⟩ := h e he
      simp [hu]
    rw [hfilter, show (GetReport st f).TotalSeconds = ((keptRows st f).map goSeconds).sum
        from (reportAccum_spec st f).2.1]
    refine congrArg List.sum (List.map_congr_left ?_)
    intro e he
    obtain ⟨u, hu, hb⟩ := h e he
    rw [goSeconds_closed hu hb, hu]
    rfl

/-- Witness for C3 (amended): a concrete report over two closed entries. -/
theorem report_total_seconds_witness :
    (GetReport ⟨[⟨1, "a", 0, some 3600, none⟩, ⟨2, "b", 10, some 1810, some 1⟩],
        [⟨1, "Work", "#ff0000"⟩], [], [], 3, 2, 1⟩ ⟨0, 100, 0, []⟩).TotalSeconds
      = (((keptRows ⟨[⟨1, "a", 0, some 3600, none⟩, ⟨2, "b", 10, some 1810, some 1⟩],
            [⟨1, "Work", "#ff0000"⟩], [], [], 3, 2, 1⟩ ⟨0, 100, 0, []⟩).filter
          (fun e => e.endTime.isSome)).map
            (fun e => e.endTime.getD e.startTime - e.startTime)).sum :=
  report_total_seconds.2
    ⟨[⟨1, "a", 0, some 3600, none⟩, ⟨2, "b", 10, some 1810, some 1⟩],
      [⟨1, "Work", "#ff0000"⟩], [], [], 3, 2, 1⟩ ⟨0, 100, 0, []⟩ (by decide)


/-- Counterexample to C4 as stated: with one zero-duration categorized
entry the total is 0, the `else` branch appends the "No Category" bucket
with zero accumulated seconds (the claim says it appears only when
nonzero); and with one zero-duration uncategorized entry the report has a
qualifying entry yet an empty breakdown (the claim says qualifying buckets
are still listed). -/
theorem noCategory_bucket_zero_seconds :
    (GetReport ⟨[⟨1, "z", 0, some 0, some 1⟩], [⟨1, "Work", "#ff0000"⟩], [], [], 2, 2, 1⟩
        ⟨0, 0, 0, []⟩).CategoryBreakdown
      = [⟨1, "Work", "#ff0000", 0, 0⟩, ⟨-1, "No Category", "#888888", 0, 0⟩]
      ∧ uncategorizedSeconds
          ⟨[⟨1, "z", 0, some 0, some 1⟩], [⟨1, "Work", "#ff0000"⟩], [], [], 2, 2, 1⟩
          ⟨0, 0, 0, []⟩ = 0
      ∧ (GetReport ⟨[⟨1, "z", 0, some 0, none⟩], [], [], [], 2, 1, 1⟩
          ⟨0, 0, 0, []⟩).CategoryBreakdown = []
      ∧ keptRows ⟨[⟨1, "z", 0, some 0, none⟩], [], [], [], 2, 1, 1⟩ ⟨0, 0, 0, []⟩ ≠ [] :=
  ⟨by decide, by decide, by decide, by decide⟩

/-- C4 (amended) -- for stores whose entries never reference category id
−1 (the real schema's ids are positive), the synthetic "No Category"
bucket appears in the breakdown iff its accumulated seconds are positive
when the total is positive, and, when the total is not positive, iff its
seconds are positive or any per-category bucket exists (even with zero
seconds).  When the total is 0 every reported percentage is 0. -/
theorem noCategory_bucket_condition :
    ∀ (st : Store) (f : ReportFilter),
      (∀ e ∈ st.entries, e.categoryID ≠ some (-1)) →
      (((-1) ∈ ((GetReport st f).CategoryBreakdown).map CategoryBreakdown.CategoryID
          ↔ (0 < (GetReport st f).TotalSeconds ∧ 0 < uncategorizedSeconds st f)
            ∨ ((GetReport st f).TotalSeconds ≤ 0
                ∧ (0 < uncategorizedSeconds st f
                    ∨ ∃ e ∈ keptRows st f, e.categoryID ≠ none)))
        ∧ ((GetReport st f).TotalSeconds = 0 →
            ∀ b ∈ (GetReport st f).CategoryBreakdown, b.Percentage = 0)) := by
  intro st f hno
  obtain ⟨hrows, htot, hnoCat, hcats_nil, hcats_ids, hcats_pct⟩ := reportAccum_spec st f
  have hno1 : (-1 : Int) ∉ ((reportAccum st f).cats).map CategoryBreakdown.CategoryID := by
    intro hmem
    have h := hcats_ids _ hmem
    rcases List.mem_map.mp h with ⟨e, he, hei⟩
    have hee : e ∈ st.entries := by
      have h1 : e ∈ keptRows st f := he
      unfold keptRows at h1
      have h2 := (List.mem_filter.mp h1).1
      unfold listTimeEntriesReport at h2
      exact (List.mem_filter.mp h2).1
    exact hno e hee hei
  have hex : ((reportAccum st f).cats ≠ []) ↔ ∃ e ∈ keptRows st f, e.categoryID ≠ none := by
    rw [ne_eq, hcats_nil]
    push_neg
    rfl
  constructor
  · show (-1) ∈ ((GetReport st f).CategoryBreakdown).map CategoryBreakdown.CategoryID
        ↔ (0 < (GetReport st f).TotalSeconds ∧ 0 < uncategorizedSeconds st f)
          ∨ ((GetReport st f).TotalSeconds ≤ 0
              ∧ (0 < uncategorizedSeconds st f ∨ ∃ e ∈ keptRows st f, e.categoryID ≠ none))
    rw [show (GetReport st f).TotalSeconds = (reportAccum st f).total from rfl,
      ← hnoCat, ← hex]
    simp only [GetReport]
    by_cases hpos : 0 < (reportAccum st f).total
    · rw [if_pos hpos]
      by_cases hnc : 0 < (reportAccum st f).noCat
      · rw [if_pos hnc]
        constructor
        · intro _
          exact Or.inl ⟨hpos, hnc⟩
        · intro _
          rw [List.map_append, List.mem_append]
          right
          simp
      · rw [if_neg hnc]
        constructor
        · intro hmem
          exfalso
          apply hno1
          rw [List.append_nil] at hmem
          rw [List.map_map] at hmem
          exact (List.mem_map.mp hmem).elim
            (fun b hb => List.mem_map.mpr ⟨b, hb.1, hb.2⟩)
        · intro h
          exfalso
          rcases h with ⟨_, h2⟩ | ⟨h1, _⟩
          · exact hnc h2
          · omega
    · rw [if_neg hpos]
      by_cases hc2 : 0 < (reportAccum st f).noCat ∨ (reportAccum st f).cats ≠ []
      · rw [if_pos hc2]
        constructor
        · intro _
          exact Or.inr ⟨by omega, hc2⟩
        · intro _
          rw [List.map_append, List.mem_append]
          right
          simp
      · rw [if_neg hc2]
        push_neg at hc2
        obtain ⟨hca, hcb⟩ := hc2
        constructor
        · intro h
          simp at h
        · intro h
          exfalso
          rcases h with ⟨h1, _⟩ | ⟨_, h3⟩
          · exact hpos h1
          · rcases h3 with h3 | h3
            · omega
            · exact h3 hcb
  · intro h0 b hb
    have h0a : (reportAccum st f).total = 0 := h0
    simp only [GetReport] at hb
    rw [if_neg (by omega)] at hb
    by_cases hc2 : 0 < (reportAccum st f).noCat ∨ (reportAccum st f).cats ≠ []
    · rw [if_pos hc2] at hb
      rcases List.mem_append.mp hb with h | h
      · exact hcats_pct b h
      · simp only [List.mem_singleton] at h
        rw [h]
    · rw [if_neg hc2] at hb
      simp at hb

/-- Witness for C4 (amended): the zero-duration categorized store — the
bucket appears (second disjunct) and all percentages are 0. -/
theorem noCategory_bucket_condition_witness :
    ((-1) ∈ ((GetReport ⟨[⟨1, "z", 0, some 0, some 1⟩], [⟨1, "Work", "#ff0000"⟩],
          [], [], 2, 2, 1⟩ ⟨0, 0, 0, []⟩).CategoryBreakdown).map
        CategoryBreakdown.CategoryID)
      ∧ ∀ b ∈ (GetReport ⟨[⟨1, "z", 0, some 0, some 1⟩], [⟨1, "Work", "#ff0000"⟩],
          [], [], 2, 2, 1⟩ ⟨0, 0, 0, []⟩).CategoryBreakdown, b.Percentage = 0 :=
  ⟨(noCategory_bucket_condition
      ⟨[⟨1, "z", 0, some 0, some 1⟩], [⟨1, "Work", "#ff0000"⟩], [], [], 2, 2, 1⟩
      ⟨0, 0, 0, []⟩ (by decide)).1.mpr
      (Or.inr ⟨by decide, Or.inr (by decide)⟩),
    (noCategory_bucket_condition
      ⟨[⟨1, "z", 0, some 0, some 1⟩], [⟨1, "Work", "#ff0000"⟩], [], [], 2, 2, 1⟩
      ⟨0, 0, 0, []⟩ (by decide)).2 (by decide)⟩

end PreciousTime
